import Mathlib

/-!
Verification of the real-time presence, room-membership and call-signaling
coordinator of the Discord-clone repository.

Server side (socket handlers around the two global maps `users` and `rooms`)
is embedded from the socket.io section of the server source; client side
(the WebRTC signaling handlers over the `peerConnections` map) is embedded
from `script.js`.  JavaScript `Map`s are modelled as insertion-ordered
association lists (set replaces in place, new keys are appended) and
JavaScript `Set`s as insertion-ordered duplicate-free lists, matching the
iteration-order guarantees of the language.
-/

namespace DiscordClone

abbrev Handle := String
abbrev RoomName := String

/-- A user record as loaded from the user database (the fields the
coordinator reads: numeric id and username). -/
structure User where
  id : Nat
  username : String
deriving DecidableEq, Repr

/-- The value stored in the `users` map on connection:
`users.set(socket.id, { ...user, socketId: socket.id })`. -/
structure UserEntry where
  id : Nat
  username : String
  socketId : Handle
deriving DecidableEq, Repr

/-- JS `Map.prototype.get`. -/
def mapLookup {α β : Type} [DecidableEq α] : List (α × β) → α → Option β
  | [], _ => none
  | (k, v) :: t, k' => if k = k' then some v else mapLookup t k'

/-- JS `Map.prototype.set`: an existing key keeps its position and gets the
new value; a fresh key is appended (insertion order). -/
def mapSet {α β : Type} [DecidableEq α] : List (α × β) → α → β → List (α × β)
  | [], k, v => [(k, v)]
  | (k', v') :: t, k, v => if k' = k then (k, v) :: t else (k', v') :: mapSet t k v

/-- JS `Map.prototype.delete`. -/
def mapDelete {α β : Type} [DecidableEq α] (m : List (α × β)) (k : α) : List (α × β) :=
  m.filter (fun p => decide (p.1 ≠ k))

/-- JS `Set.prototype.add`: a no-op on an existing element (which keeps its
position), otherwise appended at the end. -/
def setAdd (s : List Handle) (h : Handle) : List Handle :=
  if h ∈ s then s else s ++ [h]

/-- JS `Set.prototype.delete`. -/
def setDelete (s : List Handle) (h : Handle) : List Handle :=
  s.filter (fun x => decide (x ≠ h))

/-- The two process-wide tables of the coordinator:
`const users = new Map()` (Connection Registry) and
`const rooms = new Map()` (Room Membership Table). -/
structure ServerState where
  users : List (Handle × UserEntry)
  rooms : List (RoomName × List Handle)
deriving DecidableEq, Repr

/-- One outbound socket.io emission produced by a server handler.  A
`toRoom` field names a socket.io room; each connected socket is a member of
the room named by its own socket id, so `io.to(socketId)` reaches exactly
that socket when it is live. -/
inductive ServerMsg where
  | userListUpdate (entries : List UserEntry)
  | userJoinedVoice (room : RoomName) (userId : Nat) (socketId : Handle)
  | existingVoiceUsers (target : Handle) (entries : List (Option UserEntry))
  | userLeftVoice (room : RoomName) (who : Handle)
  | relayOffer (toRoom : Handle) (sender : Handle) (payload : String)
  | relayAnswer (toRoom : Handle) (sender : Handle) (payload : String)
  | relayIce (toRoom : Handle) (sender : Handle) (payload : String)
  | incomingCall (target : Handle) (fromId : Nat) (fromName : String)
      (fromSocket : Handle) (callType : String)
  | callRejectedOffline (target : Handle)
  | callAccepted (toRoom : Handle) (fromId : Nat) (fromName : String) (fromSocket : Handle)
  | callRejected (toRoom : Handle) (fromSocket : Handle)
  | callEnded (toRoom : Handle) (fromSocket : Handle)
  | newDm (target : Handle) (senderId : Nat) (text : String)
  | dmSent (target : Handle) (receiverId : Nat) (text : String)
deriving DecidableEq, Repr

/-- Current member set of a voice room (empty when the room has no entry). -/
def roomMembers (s : ServerState) (r : RoomName) : List Handle :=
  (mapLookup s.rooms r).getD []

/-- Handler for a new authenticated connection: looks the user up in the
database (the lookup may fail, modelled by `Option`; the catch branch logs
and registers nothing), stores `{ ...user, socketId }` under the socket id,
then awaits the Online status write (`userDB.updateStatus`, modelled by
`statusOk`) and only after that broadcasts the updated user list.  When the
status write rejects, the catch branch leaves the connection registered
with no broadcast — the whole body sits in one try/catch with `users.set`
before `updateStatus` and the emit after it. -/
def onConnection (s : ServerState) (h : Handle) (dbUser : Option User)
    (statusOk : Bool) : ServerState × List ServerMsg :=
  match dbUser with
  | none => (s, [])
  | some u =>
      let users' := mapSet s.users h ⟨u.id, u.username, h⟩
      ({ s with users := users' },
       if statusOk then [.userListUpdate (users'.map Prod.snd)] else [])

/-- Handler for `join-voice-channel`: creates the room entry on first join,
adds the socket id to the member set, notifies the other room members with
`user-joined-voice`, and sends the joiner the other current members
(computed after the add, filtering the joiner out, each mapped through
`users.get`). -/
def onJoinVoiceChannel (s : ServerState) (h : Handle) (channelName : RoomName)
    (userId : Nat) : ServerState × List ServerMsg :=
  let members := (mapLookup s.rooms channelName).getD []
  let members' := setAdd members h
  let existing := (members'.filter (fun x => decide (x ≠ h))).map
    (fun x => mapLookup s.users x)
  ({ s with rooms := mapSet s.rooms channelName members' },
   [.userJoinedVoice channelName userId h, .existingVoiceUsers h existing])

/-- Handler for `leave-voice-channel`: when the room exists, deletes the
socket id from its member set (the entry is kept, even when it becomes
empty) and emits `user-left-voice` to the room. -/
def onLeaveVoiceChannel (s : ServerState) (h : Handle) (channelName : RoomName) :
    ServerState × List ServerMsg :=
  match mapLookup s.rooms channelName with
  | none => (s, [])
  | some ms =>
      ({ s with rooms := mapSet s.rooms channelName (setDelete ms h) },
       [.userLeftVoice channelName h])

/-- Handler for `offer`: `socket.to(data.to).emit('offer', { offer, from: socket.id })`.
No validation of the target and no state touched. -/
def onOffer (s : ServerState) (h : Handle) (tgt : Handle) (payload : String) :
    ServerState × List ServerMsg :=
  (s, [.relayOffer tgt h payload])

/-- Handler for `answer`, same shape as `offer`. -/
def onAnswer (s : ServerState) (h : Handle) (tgt : Handle) (payload : String) :
    ServerState × List ServerMsg :=
  (s, [.relayAnswer tgt h payload])

/-- Handler for `ice-candidate`, same shape as `offer`. -/
def onIceCandidateServer (s : ServerState) (h : Handle) (tgt : Handle) (payload : String) :
    ServerState × List ServerMsg :=
  (s, [.relayIce tgt h payload])

/-- Handler for `initiate-call`: finds the first registry entry whose user
id equals the callee id (`Array.from(users.values()).find(u => u.id === to)`,
insertion order); when found, emits `incoming-call` to that entry's socket;
otherwise the caller itself gets `call-rejected`. -/
def onInitiateCall (s : ServerState) (h : Handle) (toId : Nat) (callType : String)
    (fromUser : User) : ServerState × List ServerMsg :=
  match (s.users.map Prod.snd).find? (fun u => u.id == toId) with
  | some receiver =>
      (s, [.incomingCall receiver.socketId fromUser.id fromUser.username h callType])
  | none => (s, [.callRejectedOffline h])

/-- Handler for `accept-call`: unconditionally emits `call-accepted` to the
socket named in the payload.  No session state is read or written. -/
def onAcceptCall (s : ServerState) (h : Handle) (tgt : Handle) (fromUser : User) :
    ServerState × List ServerMsg :=
  (s, [.callAccepted tgt fromUser.id fromUser.username h])

/-- Handler for `reject-call`: unconditionally emits `call-rejected` to the
socket named in the payload. -/
def onRejectCall (s : ServerState) (h : Handle) (tgt : Handle) :
    ServerState × List ServerMsg :=
  (s, [.callRejected tgt h])

/-- Handler for `end-call`: when a target is named, emits `call-ended` to it. -/
def onEndCall (s : ServerState) (h : Handle) (tgt : Option Handle) :
    ServerState × List ServerMsg :=
  match tgt with
  | some t => (s, [.callEnded t h])
  | none => (s, [])

/-- Handler for `send-dm`: finds the receiver's registry entry by user id
(first match in insertion order), emits `new-dm` to it when present, and
always echoes `dm-sent` back to the sender. -/
def onSendDm (s : ServerState) (h : Handle) (senderId : Nat) (receiverId : Nat)
    (text : String) : ServerState × List ServerMsg :=
  let toReceiver := match (s.users.map Prod.snd).find? (fun u => u.id == receiverId) with
    | some r => [ServerMsg.newDm r.socketId senderId text]
    | none => []
  (s, toReceiver ++ [.dmSent h receiverId text])

/-- Handler for `disconnect`: only when the socket is in the registry, it is
deleted from every room containing it (with a `user-left-voice` emission per
such room; emptied room entries are kept), then removed from the registry,
and the updated user list is broadcast.  An unregistered socket's disconnect
does nothing to the tables. -/
def onDisconnect (s : ServerState) (h : Handle) : ServerState × List ServerMsg :=
  match mapLookup s.users h with
  | none => (s, [])
  | some _ =>
      let leftMsgs := (s.rooms.filter (fun p => decide (h ∈ p.2))).map
        (fun p => ServerMsg.userLeftVoice p.1 h)
      let rooms' := s.rooms.map (fun p => if h ∈ p.2 then (p.1, setDelete p.2 h) else p)
      let users' := mapDelete s.users h
      (⟨users', rooms'⟩, leftMsgs ++ [.userListUpdate (users'.map Prod.snd)])

/-- Recipients of `socket.to(roomId).emit(...)` when `roomId` is a socket id:
the sockets in that room (the named socket itself when live, nobody
otherwise), minus the sender. -/
def socketToRecipients (live : List Handle) (sender roomId : Handle) : List Handle :=
  (if roomId ∈ live then [roomId] else []).filter (fun x => decide (x ≠ sender))

/-- Whether a server emission is a `call-ended` notification. -/
def ServerMsg.isCallEnded : ServerMsg → Bool
  | .callEnded _ _ => true
  | _ => false

/-- Coordinator state plus the set of live sockets (socket.io connection
lifecycle: a handle is live between its connection and its disconnect). -/
structure SysState where
  server : ServerState
  live : List Handle
deriving DecidableEq, Repr

/-- The registry/room events a connection's lifecycle can produce.
`statusOk` records whether the Online status write succeeded after the
registry insertion. -/
inductive Event where
  | connect (h : Handle) (dbUser : Option User) (statusOk : Bool)
  | joinVoice (h : Handle) (channelName : RoomName) (userId : Nat)
  | leaveVoice (h : Handle) (channelName : RoomName)
  | disconnect (h : Handle)
deriving DecidableEq, Repr

/-- One event handled to completion.  `none` marks an event that cannot
occur: connecting an already-live handle, or an event from a socket that is
not live (socket handlers only exist on live connections). -/
def execEvent (st : SysState) : Event → Option (SysState × List ServerMsg)
  | .connect h u ok =>
      if h ∈ st.live then none
      else
        let r := onConnection st.server h u ok
        some (⟨r.1, st.live ++ [h]⟩, r.2)
  | .joinVoice h c uid =>
      if h ∈ st.live then
        let r := onJoinVoiceChannel st.server h c uid
        some (⟨r.1, st.live⟩, r.2)
      else none
  | .leaveVoice h c =>
      if h ∈ st.live then
        let r := onLeaveVoiceChannel st.server h c
        some (⟨r.1, st.live⟩, r.2)
      else none
  | .disconnect h =>
      if h ∈ st.live then
        let r := onDisconnect st.server h
        some (⟨r.1, setDelete st.live h⟩, r.2)
      else none

/-- Process start: empty tables, no live sockets. -/
def initState : SysState := ⟨⟨[], []⟩, []⟩

/-- Run a sequence of events from a state. -/
def execTrace : SysState → List Event → Option SysState
  | st, [] => some st
  | st, e :: es =>
      match execEvent st e with
      | none => none
      | some (st', _) => execTrace st' es

/-- Client-side state of one `RTCPeerConnection` as the signaling handlers
observe it: the remote description (if set) and the ICE candidates that have
been successfully applied.  The client code keeps no candidate buffer, so
none is present. -/
structure PeerConn where
  remoteDesc : Option String
  applied : List String
deriving DecidableEq, Repr

/-- Client-side `peerConnections` object: remote socket id to peer connection. -/
structure ClientState where
  peerConnections : List (Handle × PeerConn)
deriving DecidableEq, Repr

/-- Semantics of `RTCPeerConnection.addIceCandidate`, the browser API the
client calls: it rejects with `InvalidStateError` (here `none`) when no
remote description has been set, and otherwise applies the candidate. -/
def addIceCandidate (pc : PeerConn) (c : String) : Option PeerConn :=
  match pc.remoteDesc with
  | some _ => some { pc with applied := pc.applied ++ [c] }
  | none => none

/-- Semantics of `RTCPeerConnection.setRemoteDescription`. -/
def setRemoteDescription (pc : PeerConn) (d : String) : PeerConn :=
  { pc with remoteDesc := some d }

/-- Client handler for `answer`: sets the remote description on the peer
connection for the sender, when one exists. -/
def clientOnAnswer (cs : ClientState) (sender : Handle) (ans : String) : ClientState :=
  match mapLookup cs.peerConnections sender with
  | some pc => ⟨mapSet cs.peerConnections sender (setRemoteDescription pc ans)⟩
  | none => cs

/-- Client handler for `ice-candidate`: `const pc = peerConnections[data.from];
if (pc && data.candidate) await pc.addIceCandidate(...)`.  With no peer
connection for the sender the candidate is dropped; otherwise
`addIceCandidate` is invoked immediately — a rejection (no remote
description yet) leaves the connection unchanged and loses the candidate.
No buffering exists on any path. -/
def clientOnIceCandidate (cs : ClientState) (sender : Handle) (cand : Option String) :
    ClientState :=
  match mapLookup cs.peerConnections sender, cand with
  | some pc, some c =>
      match addIceCandidate pc c with
      | some pc' => ⟨mapSet cs.peerConnections sender pc'⟩
      | none => cs
  | _, _ => cs

/-- The set of applied ICE candidates on the peer connection for a given
remote handle. -/
def appliedCandidates (cs : ClientState) (sender : Handle) : List String :=
  ((mapLookup cs.peerConnections sender).getD ⟨none, []⟩).applied

section MapLemmas

variable {α β : Type} [DecidableEq α]

theorem mapLookup_mapSet (m : List (α × β)) (k : α) (v : β) (k' : α) :
    mapLookup (mapSet m k v) k' = if k = k' then some v else mapLookup m k' := by
  induction m with
  | nil => simp [mapSet, mapLookup]
  | cons p t ih =>
      obtain ⟨a, b⟩ := p
      by_cases hak : a = k
      · subst hak
        by_cases hkk : a = k' <;> simp [mapSet, mapLookup, hkk]
      · by_cases hak' : a = k'
        · subst hak'
          have : k ≠ a := fun hh => hak hh.symm
          simp [mapSet, mapLookup, hak, this]
        · simp [mapSet, mapLookup, hak, hak', ih]

theorem mapLookup_mapDelete (m : List (α × β)) (k k' : α) :
    mapLookup (mapDelete m k) k' = if k' = k then none else mapLookup m k' := by
  induction m with
  | nil => simp [mapDelete, mapLookup]
  | cons p t ih =>
      obtain ⟨a, b⟩ := p
      by_cases hak : a = k
      · subst hak
        by_cases hk' : k' = a
        · subst hk'
          simp [mapDelete, mapLookup] at ih ⊢
          simpa using ih
        · have : a ≠ k' := fun hh => hk' hh.symm
          simp [mapDelete, mapLookup, this, hk'] at ih ⊢
          simpa [hk'] using ih
      · by_cases hak' : a = k'
        · subst hak'
          simp [mapDelete, mapLookup, hak]
        · simp [mapDelete, mapLookup, hak, hak'] at ih ⊢
          simpa [hak'] using ih

theorem mem_mapSet {p : α × β} {m : List (α × β)} {k : α} {v : β}
    (hp : p ∈ mapSet m k v) : p = (k, v) ∨ p ∈ m := by
  induction m with
  | nil => simpa [mapSet] using hp
  | cons q t ih =>
      obtain ⟨a, b⟩ := q
      by_cases hak : a = k
      · subst hak
        simp [mapSet] at hp
        rcases hp with h1 | h1
        · exact Or.inl h1
        · exact Or.inr (List.mem_cons_of_mem _ h1)
      · simp [mapSet, hak] at hp
        rcases hp with h1 | h1
        · exact Or.inr (by simp [h1])
        · rcases ih h1 with h2 | h2
          · exact Or.inl h2
          · exact Or.inr (List.mem_cons_of_mem _ h2)

theorem mapSet_self {m : List (α × β)} {k : α} {v : β}
    (hl : mapLookup m k = some v) : mapSet m k v = m := by
  induction m with
  | nil => simp [mapLookup] at hl
  | cons q t ih =>
      obtain ⟨a, b⟩ := q
      by_cases hak : a = k
      · subst hak
        simp [mapLookup] at hl
        simp [mapSet, hl]
      · simp [mapLookup, hak] at hl
        simp [mapSet, hak, ih hl]

theorem mem_of_mapLookup {m : List (α × β)} {k : α} {v : β}
    (hl : mapLookup m k = some v) : (k, v) ∈ m := by
  induction m with
  | nil => simp [mapLookup] at hl
  | cons q t ih =>
      obtain ⟨a, b⟩ := q
      by_cases hak : a = k
      · subst hak
        simp [mapLookup] at hl
        simp [hl]
      · simp [mapLookup, hak] at hl
        exact List.mem_cons_of_mem _ (ih hl)

theorem mapLookup_isSome_of_mem {m : List (α × β)} {k : α} {v : β}
    (hm : (k, v) ∈ m) : (mapLookup m k).isSome := by
  induction m with
  | nil => simp at hm
  | cons q t ih =>
      obtain ⟨a, b⟩ := q
      by_cases hak : a = k
      · subst hak
        simp [mapLookup]
      · simp [mapLookup, hak]
        rcases List.mem_cons.mp hm with h1 | h1
        · exact absurd (congrArg Prod.fst h1).symm hak
        · exact ih h1

end MapLemmas

theorem mem_setDelete {x h : Handle} {s : List Handle} :
    x ∈ setDelete s h ↔ x ∈ s ∧ x ≠ h := by
  simp [setDelete]

theorem setAdd_mem (s : List Handle) (h : Handle) : h ∈ setAdd s h := by
  by_cases hs : h ∈ s <;> simp [setAdd, hs]

theorem setAdd_eq_of_mem {s : List Handle} {h : Handle} (hs : h ∈ s) :
    setAdd s h = s := by
  simp [setAdd, hs]

theorem mem_setAdd {x h : Handle} {s : List Handle} :
    x ∈ setAdd s h ↔ x ∈ s ∨ x = h := by
  by_cases hs : h ∈ s
  · simp [setAdd, hs]
    intro hx
    subst hx
    exact hs
  · simp [setAdd, hs, or_comm]

theorem onJoin_already (s : ServerState) (h : Handle) (c : RoomName) (uid : Nat)
    (ms : List Handle) (hl : mapLookup s.rooms c = some ms) (hm : h ∈ ms) :
    onJoinVoiceChannel s h c uid =
      (s, [ServerMsg.userJoinedVoice c uid h,
           ServerMsg.existingVoiceUsers h
             ((ms.filter (fun x => decide (x ≠ h))).map (fun x => mapLookup s.users x))]) := by
  unfold onJoinVoiceChannel
  rw [hl]
  simp only [Option.getD_some, setAdd_eq_of_mem hm, mapSet_self hl]

theorem find?_first {α : Type} (p : α → Bool) (l₁ l₂ : List α) (r : α)
    (h₁ : ∀ u ∈ l₁, p u = false) (hr : p r = true) :
    (l₁ ++ r :: l₂).find? p = some r := by
  induction l₁ with
  | nil => simp [List.find?_cons, hr]
  | cons a t ih =>
      have ha := h₁ a (List.mem_cons_self a t)
      simp only [List.cons_append, List.find?_cons, ha]
      exact ih fun u hu => h₁ u (List.mem_cons_of_mem a hu)

/-- C1: the claim asserts that once a call session is terminal, a subsequent
accept request fails with AlreadyTerminal and leaves the status unchanged.
The server keeps no call-session state at all: with caller `a` and callee
`b` registered, after `b`'s `reject-call` (which per the claim makes the
session terminal), a subsequent `accept-call` from `b` does not fail — it
still emits `call-accepted` to `a` — refuting the claim at this input. -/
theorem C1_counterexample :
    (onRejectCall ⟨[("a", ⟨1, "alice", "a"⟩), ("b", ⟨2, "bob", "b"⟩)], []⟩ "b" "a").2
      = [ServerMsg.callRejected "a" "b"] ∧
    (onRejectCall ⟨[("a", ⟨1, "alice", "a"⟩), ("b", ⟨2, "bob", "b"⟩)], []⟩ "b" "a").1
      = ⟨[("a", ⟨1, "alice", "a"⟩), ("b", ⟨2, "bob", "b"⟩)], []⟩ ∧
    (onAcceptCall
        (onRejectCall ⟨[("a", ⟨1, "alice", "a"⟩), ("b", ⟨2, "bob", "b"⟩)], []⟩ "b" "a").1
        "b" "a" ⟨2, "bob"⟩).2
      = [ServerMsg.callAccepted "a" 2 "bob" "b"] :=
  ⟨rfl, rfl, rfl⟩

/-- C1 (amended): the server maintains no call-session status at all;
accept-call, reject-call and end-call are stateless unconditional relays to
the socket named in the payload, so no request ever fails with
AlreadyTerminal — in particular an accept issued right after a reject still
emits `call-accepted`. -/
theorem C1_call_relay_stateless (s : ServerState) (h tgt t : Handle) (fu : User) :
    onAcceptCall s h tgt fu = (s, [ServerMsg.callAccepted tgt fu.id fu.username h]) ∧
    onRejectCall s h tgt = (s, [ServerMsg.callRejected tgt h]) ∧
    onEndCall s h (some t) = (s, [ServerMsg.callEnded t h]) ∧
    (onAcceptCall (onRejectCall s h tgt).1 h tgt fu).2
      = [ServerMsg.callAccepted tgt fu.id fu.username h] :=
  ⟨rfl, rfl, rfl, rfl⟩

/-- C4: a call initiation naming a callee with no registered connection
makes the caller's own connection receive `call-rejected` immediately, with
no `incoming-call` emitted; when the callee has a registered connection,
that connection receives `incoming-call` carrying the caller's identity and
the call kind, and nothing else is emitted. -/
theorem C4_initiate_call (s : ServerState) (h : Handle) (toId : Nat) (ty : String)
    (fu : User) :
    ((∀ u ∈ s.users.map Prod.snd, u.id ≠ toId) →
       onInitiateCall s h toId ty fu = (s, [ServerMsg.callRejectedOffline h])) ∧
    ((∃ u ∈ s.users.map Prod.snd, u.id = toId) →
       ∃ r, r ∈ s.users.map Prod.snd ∧ r.id = toId ∧
         onInitiateCall s h toId ty fu
           = (s, [ServerMsg.incomingCall r.socketId fu.id fu.username h ty])) := by
  constructor
  · intro hnone
    have hfind : (s.users.map Prod.snd).find? (fun u => u.id == toId) = none := by
      rw [List.find?_eq_none]
      intro x hx
      simpa using hnone x hx
    simp [onInitiateCall, hfind]
  · rintro ⟨u, hu, hid⟩
    cases heq : (s.users.map Prod.snd).find? (fun u => u.id == toId) with
    | none =>
        rw [List.find?_eq_none] at heq
        exact absurd (by simpa using hid) (heq u hu)
    | some r =>
        refine ⟨r, List.mem_of_find?_eq_some heq, by simpa using List.find?_some heq, ?_⟩
        simp [onInitiateCall, heq]

/-- C4 witness: with only user 1 registered on socket "a", calling offline
user 2 immediately rejects to the caller; with user 2 registered on "b",
calling user 2 emits `incoming-call` to a registered connection of user 2. -/
theorem C4_witness :
    (onInitiateCall ⟨[("a", ⟨1, "alice", "a"⟩)], []⟩ "a" 2 "video" ⟨1, "alice"⟩
      = (⟨[("a", ⟨1, "alice", "a"⟩)], []⟩, [ServerMsg.callRejectedOffline "a"])) ∧
    (∃ r, r ∈ (([("a", (⟨1, "alice", "a"⟩ : UserEntry)),
                 ("b", ⟨2, "bob", "b"⟩)] : List (Handle × UserEntry)).map Prod.snd) ∧
       r.id = 2 ∧
       onInitiateCall ⟨[("a", ⟨1, "alice", "a"⟩), ("b", ⟨2, "bob", "b"⟩)], []⟩ "a" 2 "video"
           ⟨1, "alice"⟩
         = (⟨[("a", ⟨1, "alice", "a"⟩), ("b", ⟨2, "bob", "b"⟩)], []⟩,
            [ServerMsg.incomingCall r.socketId 1 "alice" "a" "video"])) :=
  ⟨(C4_initiate_call ⟨[("a", ⟨1, "alice", "a"⟩)], []⟩ "a" 2 "video" ⟨1, "alice"⟩).1
      (by decide),
   (C4_initiate_call ⟨[("a", ⟨1, "alice", "a"⟩), ("b", ⟨2, "bob", "b"⟩)], []⟩ "a" 2 "video"
      ⟨1, "alice"⟩).2 ⟨⟨2, "bob", "b"⟩, by decide, rfl⟩⟩

/-- C5: the claim asserts a relay whose target is absent from the registry
reports an UnknownTarget error to the sender.  With only socket "a" live
and registered, an offer relayed to the non-existent "ghost" emits a single
message scoped to socket.io room "ghost", which has no members — nobody,
in particular not the sender, receives anything, so no error report exists,
refuting the claim at this input. -/
theorem C5_counterexample :
    onOffer ⟨[("a", ⟨1, "alice", "a"⟩)], []⟩ "a" "ghost" "sdp"
      = (⟨[("a", ⟨1, "alice", "a"⟩)], []⟩, [ServerMsg.relayOffer "ghost" "a" "sdp"]) ∧
    socketToRecipients ["a"] "a" "ghost" = [] :=
  ⟨rfl, by decide⟩

/-- C5 (amended): all three relay handlers are total, stateless and perform
no validation: the payload is always forwarded verbatim, tagged with the
sender's socket id as `from` and scoped to the room named by the target.
When the target socket is not live the emission reaches nobody (silently
dropped, no error to the sender, no crash, and — the handlers being
stateless — subsequent relays are unaffected); when it is live and distinct
from the sender it reaches exactly the target. -/
theorem C5_relay_amended (s : ServerState) (live : List Handle) (h tgt : Handle)
    (p : String) :
    (onOffer s h tgt p = (s, [ServerMsg.relayOffer tgt h p]) ∧
     onAnswer s h tgt p = (s, [ServerMsg.relayAnswer tgt h p]) ∧
     onIceCandidateServer s h tgt p = (s, [ServerMsg.relayIce tgt h p])) ∧
    (tgt ∉ live → socketToRecipients live h tgt = []) ∧
    (tgt ∈ live → tgt ≠ h → socketToRecipients live h tgt = [tgt]) := by
  refine ⟨⟨rfl, rfl, rfl⟩, ?_, ?_⟩
  · intro hdead
    simp [socketToRecipients, hdead]
  · intro hlive hne
    simp [socketToRecipients, hlive, hne]

/-- C5 witness: with live sockets "a" and "b", a relay from "a" to the dead
"ghost" reaches nobody, while a relay from "a" to "b" reaches exactly "b". -/
theorem C5_witness :
    socketToRecipients ["a", "b"] "a" "ghost" = [] ∧
    socketToRecipients ["a", "b"] "a" "b" = ["b"] :=
  ⟨(C5_relay_amended ⟨[], []⟩ ["a", "b"] "a" "ghost" "x").2.1 (by decide),
   (C5_relay_amended ⟨[], []⟩ ["a", "b"] "a" "b" "x").2.2 (by decide) (by decide)⟩

/-- C6: joining a room a second time with the same handle leaves the state
(hence the room's member set) unchanged, and the existing-members list sent
back to the joiner is exactly the other current members in stable join
order, never containing the joiner's own handle. -/
theorem C6_join_idempotent (s : ServerState) (h : Handle) (c : RoomName) (uid : Nat) :
    (onJoinVoiceChannel (onJoinVoiceChannel s h c uid).1 h c uid).1
      = (onJoinVoiceChannel s h c uid).1 ∧
    (onJoinVoiceChannel (onJoinVoiceChannel s h c uid).1 h c uid).2
      = [ServerMsg.userJoinedVoice c uid h,
         ServerMsg.existingVoiceUsers h
           (((roomMembers (onJoinVoiceChannel s h c uid).1 c).filter
               (fun x => decide (x ≠ h))).map
             (fun x => mapLookup (onJoinVoiceChannel s h c uid).1.users x))] ∧
    h ∉ (roomMembers (onJoinVoiceChannel s h c uid).1 c).filter
          (fun x => decide (x ≠ h)) := by
  have h1 : (onJoinVoiceChannel s h c uid).1
      = { s with rooms := mapSet s.rooms c (setAdd ((mapLookup s.rooms c).getD []) h) } :=
    rfl
  have hlook : mapLookup (onJoinVoiceChannel s h c uid).1.rooms c
      = some (setAdd ((mapLookup s.rooms c).getD []) h) := by
    rw [h1]
    simp [mapLookup_mapSet]
  have hmem : roomMembers (onJoinVoiceChannel s h c uid).1 c
      = setAdd ((mapLookup s.rooms c).getD []) h := by
    simp [roomMembers, hlook]
  have hhM : h ∈ setAdd ((mapLookup s.rooms c).getD []) h := setAdd_mem _ _
  have h2 := onJoin_already (onJoinVoiceChannel s h c uid).1 h c uid _ hlook hhM
  refine ⟨?_, ?_, ?_⟩
  · rw [h2]
  · rw [h2, hmem]
  · rw [hmem]
    simp

/-- C7: the claim asserts a room emptied by a leave is pruned from the Room
Membership Table.  With room "general" holding only "a", after "a" leaves
the entry is still present (with an empty member set), refuting the claim
at this input. -/
theorem C7_counterexample :
    mapLookup ((onLeaveVoiceChannel
        ⟨[("a", ⟨1, "alice", "a"⟩)], [("general", ["a"])]⟩ "a" "general").1).rooms
      "general" = some [] := rfl

/-- C7 (amended): leaving an existing room removes the handle from its
member set and notifies the room, but the room entry itself persists even
when the member set becomes empty — no pruning occurs. -/
theorem C7_leave_no_prune (s : ServerState) (h : Handle) (c : RoomName)
    (ms : List Handle) (hl : mapLookup s.rooms c = some ms) :
    (onLeaveVoiceChannel s h c).1.users = s.users ∧
    mapLookup (onLeaveVoiceChannel s h c).1.rooms c = some (setDelete ms h) ∧
    h ∉ roomMembers (onLeaveVoiceChannel s h c).1 c ∧
    (onLeaveVoiceChannel s h c).2 = [ServerMsg.userLeftVoice c h] := by
  unfold onLeaveVoiceChannel
  rw [hl]
  refine ⟨rfl, ?_, ?_, rfl⟩
  · simp [mapLookup_mapSet]
  · simp [roomMembers, mapLookup_mapSet, mem_setDelete]

/-- C7 witness: concrete application of the amended theorem where "a"
leaves the two-member room "general". -/
theorem C7_witness :
    ((onLeaveVoiceChannel ⟨[], [("general", ["a", "b"])]⟩ "a" "general").1.users
      = ([] : List (Handle × UserEntry))) ∧
    mapLookup (onLeaveVoiceChannel ⟨[], [("general", ["a", "b"])]⟩ "a" "general").1.rooms
      "general" = some (setDelete ["a", "b"] "a") ∧
    "a" ∉ roomMembers (onLeaveVoiceChannel ⟨[], [("general", ["a", "b"])]⟩ "a" "general").1
      "general" ∧
    (onLeaveVoiceChannel ⟨[], [("general", ["a", "b"])]⟩ "a" "general").2
      = [ServerMsg.userLeftVoice "general" "a"] :=
  C7_leave_no_prune ⟨[], [("general", ["a", "b"])]⟩ "a" "general" ["a", "b"] rfl

/-- C10: when several registry entries carry the same user id, both
`initiate-call` and `send-dm` target the entry inserted earliest (the first
match in the registry's insertion order): only its socket receives the
`incoming-call` (resp. `new-dm`) event, and the user's other connections
receive nothing. -/
theorem C10_earliest_connection (s : ServerState) (h : Handle) (ty : String)
    (fu : User) (toId : Nat) (l₁ l₂ : List UserEntry) (r : UserEntry)
    (senderId : Nat) (txt : String)
    (hsplit : s.users.map Prod.snd = l₁ ++ r :: l₂)
    (hl₁ : ∀ u ∈ l₁, u.id ≠ toId) (hr : r.id = toId) :
    onInitiateCall s h toId ty fu
      = (s, [ServerMsg.incomingCall r.socketId fu.id fu.username h ty]) ∧
    onSendDm s h senderId toId txt
      = (s, [ServerMsg.newDm r.socketId senderId txt, ServerMsg.dmSent h toId txt]) := by
  have hfind : (s.users.map Prod.snd).find? (fun u => u.id == toId) = some r := by
    rw [hsplit]
    refine find?_first _ l₁ l₂ r (fun u hu => ?_) (by simpa using hr)
    simpa using hl₁ u hu
  constructor
  · simp [onInitiateCall, hfind]
  · simp [onSendDm, hfind]

/-- C10 witness: user 5 has two live connections, "a" registered first and
"b" second; a call to user 5 and a DM to user 5 both target socket "a". -/
theorem C10_witness :
    onInitiateCall ⟨[("a", ⟨5, "u1", "a"⟩), ("b", ⟨5, "u2", "b"⟩)], []⟩ "z" 5 "audio"
        ⟨9, "caller"⟩
      = (⟨[("a", ⟨5, "u1", "a"⟩), ("b", ⟨5, "u2", "b"⟩)], []⟩,
         [ServerMsg.incomingCall "a" 9 "caller" "z" "audio"]) ∧
    onSendDm ⟨[("a", ⟨5, "u1", "a"⟩), ("b", ⟨5, "u2", "b"⟩)], []⟩ "z" 9 5 "hi"
      = (⟨[("a", ⟨5, "u1", "a"⟩), ("b", ⟨5, "u2", "b"⟩)], []⟩,
         [ServerMsg.newDm "a" 9 "hi", ServerMsg.dmSent "z" 5 "hi"]) :=
  C10_earliest_connection ⟨[("a", ⟨5, "u1", "a"⟩), ("b", ⟨5, "u2", "b"⟩)], []⟩ "z" "audio"
    ⟨9, "caller"⟩ 5 [] [⟨5, "u2", "b"⟩] ⟨5, "u1", "a"⟩ 9 "hi" rfl (by decide) rfl

/-- C2: the claim asserts that disconnecting a party of an accepted call
makes the session transition to ended with a notification to the
counterpart.  Scenario: "a" (user 1) and "b" (user 2) are registered, have
an accepted call at the protocol level (the server keeps no record of it),
and "a" is a member of rooms "r1" and "r2".  Disconnecting "a" removes it
from the registry and both rooms with peer-left notifications, but emits no
`call-ended` at all — the counterpart "b" gets no call notification —
refuting the claim at this input. -/
theorem C2_counterexample :
    onDisconnect
        ⟨[("a", ⟨1, "alice", "a"⟩), ("b", ⟨2, "bob", "b"⟩), ("c", ⟨3, "carol", "c"⟩)],
         [("r1", ["a", "c"]), ("r2", ["a", "b"])]⟩ "a"
      = (⟨[("b", ⟨2, "bob", "b"⟩), ("c", ⟨3, "carol", "c"⟩)],
          [("r1", ["c"]), ("r2", ["b"])]⟩,
         [ServerMsg.userLeftVoice "r1" "a", ServerMsg.userLeftVoice "r2" "a",
          ServerMsg.userListUpdate [⟨2, "bob", "b"⟩, ⟨3, "carol", "c"⟩]]) ∧
    (onDisconnect
        ⟨[("a", ⟨1, "alice", "a"⟩), ("b", ⟨2, "bob", "b"⟩), ("c", ⟨3, "carol", "c"⟩)],
         [("r1", ["a", "c"]), ("r2", ["a", "b"])]⟩ "a").2.filter ServerMsg.isCallEnded
      = [] :=
  ⟨by decide, by decide⟩

/-- C2 (amended): disconnecting a registered connection, within the single
disconnect handler (one observable unit), removes it from the registry,
removes it from every room it belonged to — emitting one `user-left-voice`
per such room, scoped to that room — and broadcasts the updated user list;
but no call-session transition happens and no `call-ended` notification is
ever emitted to any counterpart, the server holding no call state. -/
theorem C2_disconnect_cleanup (s : ServerState) (h : Handle)
    (hreg : (mapLookup s.users h).isSome) :
    mapLookup (onDisconnect s h).1.users h = none ∧
    (∀ p ∈ (onDisconnect s h).1.rooms, h ∉ p.2) ∧
    (onDisconnect s h).2
      = ((s.rooms.filter (fun p => decide (h ∈ p.2))).map
          (fun p => ServerMsg.userLeftVoice p.1 h)) ++
        [ServerMsg.userListUpdate ((onDisconnect s h).1.users.map Prod.snd)] ∧
    (∀ m ∈ (onDisconnect s h).2, ServerMsg.isCallEnded m = false) := by
  cases heq : mapLookup s.users h with
  | none => rw [heq] at hreg; simp at hreg
  | some v =>
      have hd : onDisconnect s h
          = (⟨mapDelete s.users h,
              s.rooms.map (fun p => if h ∈ p.2 then (p.1, setDelete p.2 h) else p)⟩,
             ((s.rooms.filter (fun p => decide (h ∈ p.2))).map
               (fun p => ServerMsg.userLeftVoice p.1 h)) ++
             [ServerMsg.userListUpdate ((mapDelete s.users h).map Prod.snd)]) := by
        unfold onDisconnect
        rw [heq]
      refine ⟨?_, ?_, ?_, ?_⟩
      · rw [hd]
        simp [mapLookup_mapDelete]
      · rw [hd]
        intro p hp
        simp only [List.mem_map] at hp
        obtain ⟨q, hq, hpq⟩ := hp
        by_cases hhq : h ∈ q.2
        · rw [← hpq]
          simp [hhq, mem_setDelete]
        · rw [← hpq]
          simp [hhq]
      · rw [hd]
      · rw [hd]
        intro m hm
        simp only [List.mem_append, List.mem_map, List.mem_singleton] at hm
        rcases hm with ⟨q, _, hq⟩ | hq
        · rw [← hq]; rfl
        · rw [hq]; rfl

/-- C2 witness: concrete application of the amended disconnect theorem to a
state where "a" is registered and a member of rooms "r1" and "r2". -/
theorem C2_witness :
    mapLookup (onDisconnect
        ⟨[("a", ⟨1, "alice", "a"⟩), ("b", ⟨2, "bob", "b"⟩)],
         [("r1", ["a"]), ("r2", ["a", "b"])]⟩ "a").1.users "a" = none ∧
    (∀ p ∈ (onDisconnect
        ⟨[("a", ⟨1, "alice", "a"⟩), ("b", ⟨2, "bob", "b"⟩)],
         [("r1", ["a"]), ("r2", ["a", "b"])]⟩ "a").1.rooms, "a" ∉ p.2) ∧
    (onDisconnect
        ⟨[("a", ⟨1, "alice", "a"⟩), ("b", ⟨2, "bob", "b"⟩)],
         [("r1", ["a"]), ("r2", ["a", "b"])]⟩ "a").2
      = ((([("r1", ["a"]), ("r2", ["a", "b"])] :
            List (RoomName × List Handle)).filter (fun p => decide ("a" ∈ p.2))).map
          (fun p => ServerMsg.userLeftVoice p.1 "a")) ++
        [ServerMsg.userListUpdate ((onDisconnect
            ⟨[("a", ⟨1, "alice", "a"⟩), ("b", ⟨2, "bob", "b"⟩)],
             [("r1", ["a"]), ("r2", ["a", "b"])]⟩ "a").1.users.map Prod.snd)] ∧
    (∀ m ∈ (onDisconnect
        ⟨[("a", ⟨1, "alice", "a"⟩), ("b", ⟨2, "bob", "b"⟩)],
         [("r1", ["a"]), ("r2", ["a", "b"])]⟩ "a").2, ServerMsg.isCallEnded m = false) :=
  C2_disconnect_cleanup
    ⟨[("a", ⟨1, "alice", "a"⟩), ("b", ⟨2, "bob", "b"⟩)],
     [("r1", ["a"]), ("r2", ["a", "b"])]⟩ "a" (by decide)

/-- C9: the claim asserts candidate-before-answer and candidate-after-answer
arrival orders yield the same applied-candidate set, via buffering.  With a
peer connection for "x" that has no remote description yet: receiving the
candidate before the answer applies nothing (`addIceCandidate` rejects with
no remote description and no buffer exists), while receiving it after the
answer applies it — the two orders disagree, refuting the claim. -/
theorem C9_counterexample :
    appliedCandidates
        (clientOnAnswer (clientOnIceCandidate ⟨[("x", ⟨none, []⟩)]⟩ "x" (some "c"))
          "x" "d") "x" = [] ∧
    appliedCandidates
        (clientOnIceCandidate (clientOnAnswer ⟨[("x", ⟨none, []⟩)]⟩ "x" "d")
          "x" (some "c")) "x" = ["c"] ∧
    appliedCandidates
        (clientOnAnswer (clientOnIceCandidate ⟨[("x", ⟨none, []⟩)]⟩ "x" (some "c"))
          "x" "d") "x"
      ≠ appliedCandidates
          (clientOnIceCandidate (clientOnAnswer ⟨[("x", ⟨none, []⟩)]⟩ "x" "d")
            "x" (some "c")) "x" :=
  ⟨rfl, rfl, by decide⟩

/-- C9 (amended): the client buffers nothing.  An ICE candidate arriving
with no peer connection for the sender is dropped; one arriving while the
peer connection has no remote description fails to apply and is discarded
(the state is unchanged); only a candidate arriving after the remote
description is set is applied — so arrival order affects the set of applied
candidates. -/
theorem C9_no_ice_buffering (cs : ClientState) (sender : Handle) (c : String) :
    (mapLookup cs.peerConnections sender = none →
       clientOnIceCandidate cs sender (some c) = cs) ∧
    (∀ pc, mapLookup cs.peerConnections sender = some pc → pc.remoteDesc = none →
       clientOnIceCandidate cs sender (some c) = cs) ∧
    (∀ pc d, mapLookup cs.peerConnections sender = some pc → pc.remoteDesc = some d →
       clientOnIceCandidate cs sender (some c)
         = ⟨mapSet cs.peerConnections sender ⟨some d, pc.applied ++ [c]⟩⟩) := by
  refine ⟨?_, ?_, ?_⟩
  · intro hn
    simp [clientOnIceCandidate, hn]
  · intro pc hpc hrd
    simp [clientOnIceCandidate, hpc, addIceCandidate, hrd]
  · intro pc d hpc hrd
    simp [clientOnIceCandidate, hpc, addIceCandidate, hrd]

/-- C9 witness: concrete applications of the amended theorem — a candidate
for the unknown sender "y" is dropped; a candidate for "x" before any
remote description leaves the state unchanged; a candidate for "x" after
the remote description "d" is applied. -/
theorem C9_witness :
    clientOnIceCandidate ⟨[("x", ⟨none, []⟩)]⟩ "y" (some "c") = ⟨[("x", ⟨none, []⟩)]⟩ ∧
    clientOnIceCandidate ⟨[("x", ⟨none, []⟩)]⟩ "x" (some "c") = ⟨[("x", ⟨none, []⟩)]⟩ ∧
    clientOnIceCandidate ⟨[("x", ⟨some "d", []⟩)]⟩ "x" (some "c")
      = ⟨mapSet [("x", ⟨some "d", []⟩)] "x" ⟨some "d", [] ++ ["c"]⟩⟩ :=
  ⟨(C9_no_ice_buffering ⟨[("x", ⟨none, []⟩)]⟩ "y" "c").1 rfl,
   (C9_no_ice_buffering ⟨[("x", ⟨none, []⟩)]⟩ "x" "c").2.1 ⟨none, []⟩ rfl rfl,
   (C9_no_ice_buffering ⟨[("x", ⟨some "d", []⟩)]⟩ "x" "c").2.2 ⟨some "d", []⟩ "d" rfl rfl⟩

/-- Whether the event's database lookup succeeded (only a connect can fail
to register; a failed status write after registration does not unregister). -/
def regSucceeded : Event → Bool
  | .connect _ none _ => false
  | _ => true

theorem mem_mapDelete {α β : Type} [DecidableEq α] {m : List (α × β)} {k : α}
    {p : α × β} (hp : p ∈ mapDelete m k) : p ∈ m :=
  (List.mem_filter.mp hp).1

theorem mapLookup_mapSet_isSome {α β : Type} [DecidableEq α] {m : List (α × β)}
    {k k' : α} {v : β} (hs : (mapLookup m k').isSome) :
    (mapLookup (mapSet m k v) k').isSome := by
  rw [mapLookup_mapSet]
  split
  · rfl
  · exact hs

theorem mapLookup_mapDelete_isSome {α β : Type} [DecidableEq α] {m : List (α × β)}
    {k k' : α} (hne : k' ≠ k) (hs : (mapLookup m k').isSome) :
    (mapLookup (mapDelete m k) k').isSome := by
  rw [mapLookup_mapDelete]
  simpa [hne] using hs

theorem isSome_mapSet_self {α β : Type} [DecidableEq α] (m : List (α × β)) (k : α)
    (v : β) : (mapLookup (mapSet m k v) k).isSome = true := by
  rw [mapLookup_mapSet]
  simp

theorem onDisconnect_some {s : ServerState} {h : Handle} {v : UserEntry}
    (hm : mapLookup s.users h = some v) :
    onDisconnect s h
      = (⟨mapDelete s.users h,
          s.rooms.map (fun p => if h ∈ p.2 then (p.1, setDelete p.2 h) else p)⟩,
         ((s.rooms.filter (fun p => decide (h ∈ p.2))).map
           (fun p => ServerMsg.userLeftVoice p.1 h)) ++
         [ServerMsg.userListUpdate ((mapDelete s.users h).map Prod.snd)]) := by
  unfold onDisconnect
  rw [hm]

/-- Invariant: every room member and every live handle is registered. -/
def RegInv (st : SysState) : Prop :=
  (∀ p ∈ st.server.rooms, ∀ x ∈ p.2, (mapLookup st.server.users x).isSome) ∧
  (∀ x ∈ st.live, (mapLookup st.server.users x).isSome)

theorem RegInv_step {st st' : SysState} {e : Event} {msgs : List ServerMsg}
    (hinv : RegInv st) (hok : regSucceeded e = true)
    (hex : execEvent st e = some (st', msgs)) : RegInv st' := by
  obtain ⟨hrooms, hlive⟩ := hinv
  cases e with
  | connect h u ok =>
      cases u with
      | none => simp [regSucceeded] at hok
      | some u =>
          simp only [execEvent] at hex
          split at hex
          · exact Option.noConfusion hex
          · next hnl =>
            have h' := Option.some.inj hex
            rw [Prod.ext_iff] at h'
            obtain ⟨h1, _⟩ := h'
            subst h1
            constructor
            · intro p hp x hx
              exact mapLookup_mapSet_isSome (hrooms p hp x hx)
            · intro x hx
              rcases List.mem_append.mp hx with hx | hx
              · exact mapLookup_mapSet_isSome (hlive x hx)
              · have hxh : x = h := by simpa using hx
                subst hxh
                exact isSome_mapSet_self st.server.users _ _
  | joinVoice h c uid =>
      simp only [execEvent] at hex
      split at hex
      · next hl =>
        have h' := Option.some.inj hex
        rw [Prod.ext_iff] at h'
        obtain ⟨h1, _⟩ := h'
        subst h1
        constructor
        · intro p hp x hx
          have hp' : p ∈ mapSet st.server.rooms c
              (setAdd ((mapLookup st.server.rooms c).getD []) h) := hp
          rcases mem_mapSet hp' with h2 | h2
          · rw [h2] at hx
            rcases mem_setAdd.mp hx with h3 | h3
            · cases hm : mapLookup st.server.rooms c with
              | none => rw [hm] at h3; simp at h3
              | some ms =>
                  rw [hm] at h3
                  exact hrooms (c, ms) (mem_of_mapLookup hm) x (by simpa using h3)
            · subst h3
              exact hlive x hl
          · exact hrooms p h2 x hx
        · intro x hx
          exact hlive x hx
      · exact Option.noConfusion hex
  | leaveVoice h c =>
      simp only [execEvent] at hex
      split at hex
      · next hl =>
        have h' := Option.some.inj hex
        rw [Prod.ext_iff] at h'
        obtain ⟨h1, _⟩ := h'
        cases hm : mapLookup st.server.rooms c with
        | none =>
            have hs : (onLeaveVoiceChannel st.server h c).1 = st.server := by
              unfold onLeaveVoiceChannel
              rw [hm]
            rw [hs] at h1
            subst h1
            exact ⟨hrooms, hlive⟩
        | some ms =>
            have hs : (onLeaveVoiceChannel st.server h c).1
                = { st.server with rooms := mapSet st.server.rooms c (setDelete ms h) } := by
              unfold onLeaveVoiceChannel
              rw [hm]
            rw [hs] at h1
            subst h1
            constructor
            · intro p hp x hx
              rcases mem_mapSet hp with h2 | h2
              · rw [h2] at hx
                have hx' := mem_setDelete.mp hx
                exact hrooms (c, ms) (mem_of_mapLookup hm) x (by simpa using hx'.1)
              · exact hrooms p h2 x hx
            · intro x hx
              exact hlive x hx
      · exact Option.noConfusion hex
  | disconnect h =>
      simp only [execEvent] at hex
      split at hex
      · next hl =>
        have h' := Option.some.inj hex
        rw [Prod.ext_iff] at h'
        obtain ⟨h1, _⟩ := h'
        cases hm : mapLookup st.server.users h with
        | none =>
            have hs : (onDisconnect st.server h).1 = st.server := by
              unfold onDisconnect
              rw [hm]
            rw [hs] at h1
            subst h1
            constructor
            · exact hrooms
            · intro x hx
              exact hlive x (mem_setDelete.mp hx).1
        | some v =>
            have hs := onDisconnect_some hm
            rw [hs] at h1
            subst h1
            constructor
            · intro p hp x hx
              simp only [List.mem_map] at hp
              obtain ⟨q, hq, hpq⟩ := hp
              by_cases hhq : h ∈ q.2
              · rw [← hpq] at hx
                simp only [if_pos hhq] at hx
                have hx' := mem_setDelete.mp hx
                exact mapLookup_mapDelete_isSome hx'.2 (hrooms q hq x hx'.1)
              · rw [← hpq] at hx
                simp only [if_neg hhq] at hx
                have hne : x ≠ h := fun hxh => hhq (hxh ▸ hx)
                exact mapLookup_mapDelete_isSome hne (hrooms q hq x hx)
            · intro x hx
              have hx' := mem_setDelete.mp hx
              exact mapLookup_mapDelete_isSome hx'.2 (hlive x hx'.1)
      · exact Option.noConfusion hex

theorem RegInv_trace (es : List Event) :
    ∀ st st' : SysState, RegInv st → (∀ e ∈ es, regSucceeded e = true) →
      execTrace st es = some st' → RegInv st' := by
  induction es with
  | nil =>
      intro st st' hinv _ hex
      have : st = st' := by simpa [execTrace] using hex
      exact this ▸ hinv
  | cons e es ih =>
      intro st st' hinv hok hex
      unfold execTrace at hex
      cases he : execEvent st e with
      | none => rw [he] at hex; exact Option.noConfusion hex
      | some pr =>
          obtain ⟨st1, msgs⟩ := pr
          rw [he] at hex
          exact ih st1 st' (RegInv_step hinv (hok e (List.mem_cons_self e es)) he)
            (fun e' he' => hok e' (List.mem_cons_of_mem e he')) hex

/-- C3: the claim asserts every handle in a room's member set is registered,
in every reachable state.  When the database lookup at connection time
fails (the catch branch of the connection handler), the socket stays live
but unregistered, and its subsequent join still adds it to the room: after
`connect "a"` with a failed lookup and `join "a" "lobby"`, handle "a" is a
member of "lobby" but absent from the registry, refuting the claim. -/
theorem C3_counterexample :
    execTrace initState [Event.connect "a" none true, Event.joinVoice "a" "lobby" 1]
      = some ⟨⟨[], [("lobby", ["a"])]⟩, ["a"]⟩ ∧
    "a" ∈ roomMembers (SysState.mk ⟨[], [("lobby", ["a"])]⟩ ["a"]).server "lobby" ∧
    mapLookup (SysState.mk ⟨[], [("lobby", ["a"])]⟩ ["a"]).server.users "a" = none :=
  ⟨by decide, by decide, rfl⟩

/-- C3 (amended): provided the registration at connection time succeeds for
every connection in the trace (no failed database lookup), every state
reachable by connection, join, leave and disconnect events keeps each
room-member handle registered in the Connection Registry. -/
theorem C3_room_members_registered (es : List Event) (st : SysState)
    (hok : ∀ e ∈ es, regSucceeded e = true)
    (hex : execTrace initState es = some st) :
    ∀ r : RoomName, ∀ x ∈ roomMembers st.server r,
      (mapLookup st.server.users x).isSome := by
  have hinit : RegInv initState := by
    constructor
    · intro p hp
      simp [initState] at hp
    · intro x hx
      simp [initState] at hx
  have hinv : RegInv st := RegInv_trace es initState st hinit hok hex
  intro r x hx
  unfold roomMembers at hx
  cases hm : mapLookup st.server.rooms r with
  | none => rw [hm] at hx; simp at hx
  | some ms =>
      rw [hm] at hx
      exact hinv.1 (r, ms) (mem_of_mapLookup hm) x (by simpa using hx)

/-- C3 witness: concrete application of the amended theorem to the trace
where "a" connects (successful lookup of user 1) and joins "lobby". -/
theorem C3_witness :
    (∀ e ∈ [Event.connect "a" (some ⟨1, "alice"⟩) true,
        Event.joinVoice "a" "lobby" 1], regSucceeded e = true) ∧
    execTrace initState [Event.connect "a" (some ⟨1, "alice"⟩) true,
        Event.joinVoice "a" "lobby" 1]
      = some ⟨⟨[("a", ⟨1, "alice", "a"⟩)], [("lobby", ["a"])]⟩, ["a"]⟩ ∧
    ∀ r : RoomName,
      ∀ x ∈ roomMembers (SysState.mk ⟨[("a", ⟨1, "alice", "a"⟩)],
          [("lobby", ["a"])]⟩ ["a"]).server r,
        (mapLookup (SysState.mk ⟨[("a", ⟨1, "alice", "a"⟩)],
          [("lobby", ["a"])]⟩ ["a"]).server.users x).isSome :=
  ⟨by decide, by decide,
   C3_room_members_registered
     [Event.connect "a" (some ⟨1, "alice"⟩) true, Event.joinVoice "a" "lobby" 1]
     ⟨⟨[("a", ⟨1, "alice", "a"⟩)], [("lobby", ["a"])]⟩, ["a"]⟩
     (by decide) (by decide)⟩

/-- Invariant: each registry entry's stored socket id equals its key. -/
def SockInv (st : SysState) : Prop :=
  ∀ p ∈ st.server.users, p.2.socketId = p.1

theorem SockInv_step {st st' : SysState} {e : Event} {msgs : List ServerMsg}
    (hinv : SockInv st) (hex : execEvent st e = some (st', msgs)) : SockInv st' := by
  cases e with
  | connect h u ok =>
      simp only [execEvent] at hex
      split at hex
      · exact Option.noConfusion hex
      · next hnl =>
        have h' := Option.some.inj hex
        rw [Prod.ext_iff] at h'
        obtain ⟨h1, _⟩ := h'
        cases u with
        | none =>
            have hs : (onConnection st.server h none ok).1 = st.server := rfl
            rw [hs] at h1
            subst h1
            exact hinv
        | some u =>
            subst h1
            intro p hp
            have hp' : p ∈ mapSet st.server.users h ⟨u.id, u.username, h⟩ := hp
            rcases mem_mapSet hp' with h2 | h2
            · rw [h2]
            · exact hinv p h2
  | joinVoice h c uid =>
      simp only [execEvent] at hex
      split at hex
      · have h' := Option.some.inj hex
        rw [Prod.ext_iff] at h'
        obtain ⟨h1, _⟩ := h'
        subst h1
        exact hinv
      · exact Option.noConfusion hex
  | leaveVoice h c =>
      simp only [execEvent] at hex
      split at hex
      · have h' := Option.some.inj hex
        rw [Prod.ext_iff] at h'
        obtain ⟨h1, _⟩ := h'
        have hs : (onLeaveVoiceChannel st.server h c).1.users = st.server.users := by
          unfold onLeaveVoiceChannel
          split <;> rfl
        subst h1
        intro p hp
        rw [hs] at hp
        exact hinv p hp
      · exact Option.noConfusion hex
  | disconnect h =>
      simp only [execEvent] at hex
      split at hex
      · have h' := Option.some.inj hex
        rw [Prod.ext_iff] at h'
        obtain ⟨h1, _⟩ := h'
        cases hm : mapLookup st.server.users h with
        | none =>
            have hs : (onDisconnect st.server h).1 = st.server := by
              unfold onDisconnect
              rw [hm]
            rw [hs] at h1
            subst h1
            exact hinv
        | some v =>
            have hs := onDisconnect_some hm
            rw [hs] at h1
            subst h1
            intro p hp
            exact hinv p (mem_mapDelete hp)
      · exact Option.noConfusion hex

theorem SockInv_trace (es : List Event) :
    ∀ st st' : SysState, SockInv st → execTrace st es = some st' → SockInv st' := by
  induction es with
  | nil =>
      intro st st' hinv hex
      have : st = st' := by simpa [execTrace] using hex
      exact this ▸ hinv
  | cons e es ih =>
      intro st st' hinv hex
      unfold execTrace at hex
      cases he : execEvent st e with
      | none => rw [he] at hex; exact Option.noConfusion hex
      | some pr =>
          obtain ⟨st1, msgs⟩ := pr
          rw [he] at hex
          exact ih st1 st' (SockInv_step hinv he) hex

theorem socketId_values_iff {m : List (Handle × UserEntry)}
    (hm : ∀ p ∈ m, p.2.socketId = p.1) (x : Handle) :
    (∃ e ∈ m.map Prod.snd, e.socketId = x) ↔ (mapLookup m x).isSome := by
  constructor
  · rintro ⟨e, he, hesock⟩
    rw [List.mem_map] at he
    obtain ⟨p, hp, rfl⟩ := he
    have h1 := hm p hp
    rw [h1] at hesock
    subst hesock
    exact mapLookup_isSome_of_mem (m := m) (k := p.1) (v := p.2) (by simpa using hp)
  · intro hsome
    cases heq : mapLookup m x with
    | none => rw [heq] at hsome; simp at hsome
    | some v =>
        have hmem := mem_of_mapLookup heq
        exact ⟨v, List.mem_map.mpr ⟨(x, v), hmem, rfl⟩, hm (x, v) hmem⟩

/-- C8: the claim asserts that after every register operation the online
list broadcast reflects exactly the currently-registered connections (no
omissions).  When the Online status write rejects after `users.set` (the
await between the registry insertion and the broadcast, caught by the
handler's try/catch), the connection ends up registered but no
`user-list-update` is emitted at all: from the initial state, connecting
"a" with a failed status write registers "a" and emits the empty message
list, so the registered connection "a" appears in no broadcast — refuting
the claim at this input. -/
theorem C8_counterexample :
    execEvent initState (Event.connect "a" (some ⟨1, "alice"⟩) false)
      = some (⟨⟨[("a", ⟨1, "alice", "a"⟩)], []⟩, ["a"]⟩, []) ∧
    (mapLookup (ServerState.mk [("a", ⟨1, "alice", "a"⟩)] []).users "a").isSome
      = true :=
  ⟨by decide, rfl⟩

/-- C8 (amended): in every reachable state, a register whose status write
succeeds, and an unregister of a registered socket, broadcast exactly the
currently registered connections: a handle appears among the broadcast
entries' socket ids if and only if it is registered after the operation —
no ghosts, no omissions.  But a register whose Online status write fails
after the registry insertion registers the connection and emits no
broadcast, so that connection is omitted from the online list the clients
hold until the next broadcast. -/
theorem C8_presence_broadcast (es : List Event) (st : SysState)
    (hex : execTrace initState es = some st) :
    (∀ (h : Handle) (u : User) (st' : SysState) (msgs : List ServerMsg),
       execEvent st (Event.connect h (some u) true) = some (st', msgs) →
       msgs = [ServerMsg.userListUpdate (st'.server.users.map Prod.snd)] ∧
       ∀ x : Handle,
         (∃ e ∈ st'.server.users.map Prod.snd, e.socketId = x) ↔
           (mapLookup st'.server.users x).isSome) ∧
    (∀ (h : Handle) (u : User) (st' : SysState) (msgs : List ServerMsg),
       execEvent st (Event.connect h (some u) false) = some (st', msgs) →
       msgs = [] ∧ (mapLookup st'.server.users h).isSome) ∧
    (∀ (h : Handle) (st' : SysState) (msgs : List ServerMsg),
       execEvent st (Event.disconnect h) = some (st', msgs) →
       (mapLookup st.server.users h).isSome →
       ServerMsg.userListUpdate (st'.server.users.map Prod.snd) ∈ msgs ∧
       ∀ x : Handle,
         (∃ e ∈ st'.server.users.map Prod.snd, e.socketId = x) ↔
           (mapLookup st'.server.users x).isSome) := by
  have hinit : SockInv initState := by
    intro p hp
    simp [initState] at hp
  have hs : SockInv st := SockInv_trace es initState st hinit hex
  refine ⟨?_, ?_, ?_⟩
  · intro h u st' msgs hconn
    simp only [execEvent] at hconn
    split at hconn
    · exact Option.noConfusion hconn
    · next hnl =>
      have h' := Option.some.inj hconn
      rw [Prod.ext_iff] at h'
      obtain ⟨h1, h2⟩ := h'
      subst h1
      subst h2
      refine ⟨rfl, ?_⟩
      apply socketId_values_iff
      intro p hp
      have hp' : p ∈ mapSet st.server.users h ⟨u.id, u.username, h⟩ := hp
      rcases mem_mapSet hp' with h3 | h3
      · rw [h3]
      · exact hs p h3
  · intro h u st' msgs hconn
    simp only [execEvent] at hconn
    split at hconn
    · exact Option.noConfusion hconn
    · next hnl =>
      have h' := Option.some.inj hconn
      rw [Prod.ext_iff] at h'
      obtain ⟨h1, h2⟩ := h'
      subst h1
      subst h2
      exact ⟨rfl, isSome_mapSet_self st.server.users _ _⟩
  · intro h st' msgs hdis hreg
    simp only [execEvent] at hdis
    split at hdis
    · next hl =>
      cases hm : mapLookup st.server.users h with
      | none => rw [hm] at hreg; simp at hreg
      | some v =>
          have hd := onDisconnect_some hm
          have h' := Option.some.inj hdis
          rw [Prod.ext_iff] at h'
          obtain ⟨h1, h2⟩ := h'
          rw [hd] at h1 h2
          subst h1
          subst h2
          refine ⟨by simp, ?_⟩
          apply socketId_values_iff
          intro p hp
          exact hs p (mem_mapDelete hp)
    · exact Option.noConfusion hdis

/-- C8 witness: from the initial state, registering user 1 on socket "a"
with a successful status write broadcasts exactly the one-entry user list,
whose socket ids coincide with the registered handles; with a failed status
write the same registration emits nothing while "a" is registered. -/
theorem C8_witness :
    execEvent initState (Event.connect "a" (some ⟨1, "alice"⟩) true)
      = some (⟨⟨[("a", ⟨1, "alice", "a"⟩)], []⟩, ["a"]⟩,
              [ServerMsg.userListUpdate [⟨1, "alice", "a"⟩]]) ∧
    ([ServerMsg.userListUpdate [⟨1, "alice", "a"⟩]]
      = [ServerMsg.userListUpdate
          ((SysState.mk ⟨[("a", ⟨1, "alice", "a"⟩)], []⟩ ["a"]).server.users.map
            Prod.snd)] ∧
     ∀ x : Handle,
       (∃ e ∈ (SysState.mk ⟨[("a", ⟨1, "alice", "a"⟩)], []⟩
           ["a"]).server.users.map Prod.snd, e.socketId = x) ↔
         (mapLookup (SysState.mk ⟨[("a", ⟨1, "alice", "a"⟩)], []⟩
           ["a"]).server.users x).isSome) ∧
    (([] : List ServerMsg) = [] ∧
     (mapLookup (SysState.mk ⟨[("a", ⟨1, "alice", "a"⟩)], []⟩
       ["a"]).server.users "a").isSome) :=
  ⟨by decide,
   (C8_presence_broadcast [] initState rfl).1 "a" ⟨1, "alice"⟩
     ⟨⟨[("a", ⟨1, "alice", "a"⟩)], []⟩, ["a"]⟩
     [ServerMsg.userListUpdate [⟨1, "alice", "a"⟩]] (by decide),
   (C8_presence_broadcast [] initState rfl).2.1 "a" ⟨1, "alice"⟩
     ⟨⟨[("a", ⟨1, "alice", "a"⟩)], []⟩, ["a"]⟩ [] (by decide)⟩

end DiscordClone
